import Mathlib

/-!
Shallow embedding of the data-consistency layer of the Travel-Social
application: the client-side vote/reaction/RSVP toggle protocols
(`Posts.tsx handleVote`, vlog `handleReaction`, `Events.tsx handleRSVP`,
`CommunityWiki.tsx handleVote`, `Matches.tsx handleStartChat`/`fetchMatches`)
and the SQL schema constraints and row-level-security policies from the
migrations (post_votes / event_rsvps primary keys, chats CHECK constraints,
events and messages policies, travel_plans date-range CHECK).
-/

/-- `vote_type` column of `post_votes`: CHECK (vote_type IN ('up','down')). -/
inductive VoteType
  | up
  | down
deriving DecidableEq, Repr

/-- The per-(user, post) client state used by `Posts.tsx handleVote`: the
user's existing vote row (if any) and the post's counters. Counters are
modelled as `Int` so that negative writes are expressible. -/
structure PostCounters where
  vote : Option VoteType
  upvotes : Int
  downvotes : Int
deriving DecidableEq, Repr

/-- `Posts.tsx handleVote` as a transition on the per-(user, post) state:
re-clicking the current vote deletes the row and decrements that counter
floored at 0 (`Math.max(..., 0)`); switching decrements the old counter
(floored) and increments the new one; a fresh vote increments its counter. -/
def handleVote (s : PostCounters) (voteType : VoteType) : PostCounters :=
  if s.vote = some voteType then
    { vote := none
      upvotes := if voteType = VoteType.up then max (s.upvotes - 1) 0 else s.upvotes
      downvotes := if voteType = VoteType.down then max (s.downvotes - 1) 0 else s.downvotes }
  else
    match s.vote, voteType with
    | some VoteType.up, VoteType.down =>
        { vote := some VoteType.down
          upvotes := max (s.upvotes - 1) 0
          downvotes := s.downvotes + 1 }
    | some VoteType.down, VoteType.up =>
        { vote := some VoteType.up
          upvotes := s.upvotes + 1
          downvotes := max (s.downvotes - 1) 0 }
    | _, _ =>
        { vote := some voteType
          upvotes := if voteType = VoteType.up then s.upvotes + 1 else s.upvotes
          downvotes := if voteType = VoteType.down then s.downvotes + 1 else s.downvotes }

section KeyedTable

variable {α : Type}

/-- Rows of a table whose key (a pair of uuid columns) equals `k`. -/
def rowsFor (key : α → Nat × Nat) (t : List α) (k : Nat × Nat) : List α :=
  t.filter (fun r => decide (key r = k))

/-- SQL `DELETE ... WHERE key = k`. -/
def deleteRows (key : α → Nat × Nat) (t : List α) (k : Nat × Nat) : List α :=
  t.filter (fun r => !(decide (key r = k)))

/-- Supabase `upsert` with `onConflict` on the composite primary key: if a
row with key `k` exists it is updated in place by `upd`, otherwise the fresh
row `mk` is inserted. -/
def upsertRow (key : α → Nat × Nat) (t : List α) (k : Nat × Nat) (mk : α)
    (upd : α → α) : List α :=
  if t.any (fun r => decide (key r = k)) then
    t.map (fun r => if key r = k then upd r else r)
  else
    mk :: t

/-- The composite-primary-key invariant: at most one row per key value. -/
def atMostOne (key : α → Nat × Nat) (t : List α) : Prop :=
  ∀ k, (rowsFor key t k).length ≤ 1

theorem rowsFor_nil (key : α → Nat × Nat) (k : Nat × Nat) :
    rowsFor key ([] : List α) k = [] := rfl

theorem rowsFor_cons (key : α → Nat × Nat) (a : α) (t : List α) (k : Nat × Nat) :
    rowsFor key (a :: t) k =
      if key a = k then a :: rowsFor key t k else rowsFor key t k := by
  simp only [rowsFor, List.filter_cons]
  by_cases h : key a = k <;> simp [h]

theorem rowsFor_eq_nil (key : α → Nat × Nat) (t : List α) (k : Nat × Nat) :
    rowsFor key t k = [] ↔ ∀ r ∈ t, key r ≠ k := by
  simp [rowsFor, List.filter_eq_nil_iff]

theorem any_key_eq (key : α → Nat × Nat) (t : List α) (k : Nat × Nat) :
    t.any (fun r => decide (key r = k)) = true ↔ ∃ r ∈ t, key r = k := by
  simp [List.any_eq_true]

theorem deleteRows_cons (key : α → Nat × Nat) (a : α) (t : List α) (k : Nat × Nat) :
    deleteRows key (a :: t) k =
      if key a = k then deleteRows key t k else a :: deleteRows key t k := by
  simp only [deleteRows, List.filter_cons]
  by_cases h : key a = k <;> simp [h]

theorem length_rowsFor_deleteRows_le (key : α → Nat × Nat) (t : List α)
    (k k₂ : Nat × Nat) :
    (rowsFor key (deleteRows key t k) k₂).length ≤ (rowsFor key t k₂).length := by
  induction t with
  | nil => simp [deleteRows, rowsFor]
  | cons a t ih =>
      rw [rowsFor_cons, deleteRows_cons]
      by_cases h : key a = k
      · rw [if_pos h]
        by_cases h₂ : key a = k₂
        · rw [if_pos h₂]
          exact Nat.le_succ_of_le ih
        · rw [if_neg h₂]
          exact ih
      · rw [if_neg h, rowsFor_cons]
        by_cases h₂ : key a = k₂
        · rw [if_pos h₂, if_pos h₂]
          exact Nat.succ_le_succ ih
        · rw [if_neg h₂, if_neg h₂]
          exact ih

theorem atMostOne_deleteRows (key : α → Nat × Nat) (t : List α) (k : Nat × Nat)
    (h : atMostOne key t) : atMostOne key (deleteRows key t k) := fun k₂ =>
  le_trans (length_rowsFor_deleteRows_le key t k k₂) (h k₂)

theorem rowsFor_map (key : α → Nat × Nat) (f : α → α)
    (hf : ∀ r, key (f r) = key r) (t : List α) (k : Nat × Nat) :
    rowsFor key (t.map f) k = (rowsFor key t k).map f := by
  induction t with
  | nil => rfl
  | cons a t ih =>
      rw [List.map_cons, rowsFor_cons, rowsFor_cons, hf]
      by_cases h : key a = k
      · simp [h, ih]
      · simp [h, ih]

theorem atMostOne_upsertRow (key : α → Nat × Nat) (t : List α) (k : Nat × Nat)
    (mk : α) (upd : α → α) (hmk : key mk = k) (hupd : ∀ r, key (upd r) = key r)
    (h : atMostOne key t) : atMostOne key (upsertRow key t k mk upd) := by
  intro k₂
  unfold upsertRow
  by_cases hany : t.any (fun r => decide (key r = k)) = true
  · rw [if_pos hany,
      rowsFor_map key _ (fun r => by by_cases hr : key r = k <;> simp [hr, hupd]) t k₂,
      List.length_map]
    exact h k₂
  · rw [if_neg hany, rowsFor_cons]
    by_cases hk : key mk = k₂
    · rw [if_pos hk, List.length_cons]
      have hnil : rowsFor key t k₂ = [] := by
        rw [rowsFor_eq_nil]
        intro r hr hkey
        exact hany (by rw [any_key_eq]; exact ⟨r, hr, by rw [hkey, ← hk, hmk]⟩)
      rw [hnil]
      simp
    · rw [if_neg hk]
      exact h k₂

theorem mem_rowsFor (key : α → Nat × Nat) (t : List α) (k : Nat × Nat) (r : α)
    (h : r ∈ rowsFor key t k) : r ∈ t ∧ key r = k := by
  simpa [rowsFor, List.mem_filter] using h

theorem rowsFor_upsertRow_self (key : α → Nat × Nat) (t : List α) (k : Nat × Nat)
    (mk : α) (upd : α → α) (hmk : key mk = k) (hupd : ∀ r, key (upd r) = key r) :
    rowsFor key (upsertRow key t k mk upd) k =
      if t.any (fun r => decide (key r = k)) = true then (rowsFor key t k).map upd
      else [mk] := by
  unfold upsertRow
  by_cases hany : t.any (fun r => decide (key r = k)) = true
  · rw [if_pos hany, if_pos hany,
      rowsFor_map key _ (fun r => by by_cases hr : key r = k <;> simp [hr, hupd]) t k]
    apply List.map_congr_left
    intro r hr
    rw [if_pos (mem_rowsFor key t k r hr).2]
  · rw [if_neg hany, if_neg hany, rowsFor_cons, if_pos hmk]
    have hnil : rowsFor key t k = [] := by
      rw [rowsFor_eq_nil]
      intro r hr hkey
      exact hany (by rw [any_key_eq]; exact ⟨r, hr, hkey⟩)
    rw [hnil]

theorem rowsFor_upsertRow_other (key : α → Nat × Nat) (t : List α) (k k₂ : Nat × Nat)
    (mk : α) (upd : α → α) (hmk : key mk = k) (hupd : ∀ r, key (upd r) = key r)
    (hne : k₂ ≠ k) :
    rowsFor key (upsertRow key t k mk upd) k₂ = rowsFor key t k₂ := by
  unfold upsertRow
  by_cases hany : t.any (fun r => decide (key r = k)) = true
  · rw [if_pos hany,
      rowsFor_map key _ (fun r => by by_cases hr : key r = k <;> simp [hr, hupd]) t k₂]
    apply List.ext_getElem
    · rw [List.length_map]
    · intro i h₁ h₂
      rw [List.getElem_map]
      have hmem := mem_rowsFor key t k₂ _ (List.getElem_mem h₂)
      rw [if_neg (by rw [hmem.2]; exact hne)]
  · rw [if_neg hany, rowsFor_cons, if_neg (by rw [hmk]; exact fun h => hne h.symm)]

end KeyedTable

/-- A row of the `post_votes` table: `PRIMARY KEY (user_id, post_id)`,
`vote_type` CHECK-constrained to {up, down}. Uuids are modelled as `Nat`. -/
structure VoteRow where
  user_id : Nat
  post_id : Nat
  vote_type : VoteType
deriving DecidableEq, Repr

/-- The composite primary key of `post_votes`. -/
def voteKey (r : VoteRow) : Nat × Nat := (r.user_id, r.post_id)

/-- `handleVote`'s vote-removal branch:
`supabase.from('post_votes').delete().eq('user_id', u).eq('post_id', p)`. -/
def deleteVote (t : List VoteRow) (u p : Nat) : List VoteRow :=
  deleteRows voteKey t (u, p)

/-- `handleVote`'s add-or-switch branch:
`supabase.from('post_votes').upsert({...}, { onConflict: 'user_id,post_id' })`. -/
def upsertVote (t : List VoteRow) (u p : Nat) (vt : VoteType) : List VoteRow :=
  upsertRow voteKey t (u, p) ⟨u, p, vt⟩ (fun r => { r with vote_type := vt })

/-- The user's existing vote for the post, as fetched by `handleVote`
(`select('vote_type').eq('user_id', u).eq('post_id', p).single()`). -/
def findVote (t : List VoteRow) (u p : Nat) : Option VoteType :=
  (t.find? (fun r => decide (voteKey r = (u, p)))).map VoteRow.vote_type

/-- The effect of one `Posts.tsx handleVote` call on the `post_votes` table:
delete when re-clicking the existing vote type, upsert otherwise. -/
def handleVoteRows (t : List VoteRow) (u p : Nat) (vt : VoteType) : List VoteRow :=
  if findVote t u p = some vt then deleteVote t u p else upsertVote t u p vt

theorem atMostOne_handleVoteRows (t : List VoteRow) (u p : Nat) (vt : VoteType)
    (h : atMostOne voteKey t) : atMostOne voteKey (handleVoteRows t u p vt) := by
  unfold handleVoteRows
  by_cases hf : findVote t u p = some vt
  · rw [if_pos hf]
    exact atMostOne_deleteRows voteKey t (u, p) h
  · rw [if_neg hf]
    exact atMostOne_upsertRow voteKey t (u, p) ⟨u, p, vt⟩ _ rfl (fun r => rfl) h

theorem handleVote_fresh (up down : Int) (vt : VoteType) :
    handleVote ⟨none, up, down⟩ vt =
      ⟨some vt, if vt = VoteType.up then up + 1 else up,
        if vt = VoteType.down then down + 1 else down⟩ := by
  cases vt <;> rfl

theorem handleVote_remove (up down : Int) (vt : VoteType) :
    handleVote ⟨some vt, up, down⟩ vt =
      ⟨none, if vt = VoteType.up then max (up - 1) 0 else up,
        if vt = VoteType.down then max (down - 1) 0 else down⟩ := by
  cases vt <;> rfl

/-- C1: for every (user, post) pair at most one `post_votes` row exists
(`handleVoteRows` preserves the composite-primary-key invariant), and for a
single user acting sequentially on one post, toggling the same vote type
twice from the no-vote state returns the vote state to `none` with zero net
change to the post's upvote and downvote counters. -/
theorem post_vote_unique_and_double_toggle (t : List VoteRow) (u p : Nat)
    (vt : VoteType) (s : PostCounters) (ht : atMostOne voteKey t)
    (hv : s.vote = none) (hu : 0 ≤ s.upvotes) (hd : 0 ≤ s.downvotes) :
    atMostOne voteKey (handleVoteRows t u p vt) ∧
      handleVote (handleVote s vt) vt = s := by
  refine ⟨atMostOne_handleVoteRows t u p vt ht, ?_⟩
  obtain ⟨v, up, down⟩ := s
  simp only at hv hu hd
  subst hv
  rw [handleVote_fresh]
  cases vt
  · rw [if_pos rfl, if_neg (by decide), handleVote_remove,
      if_pos rfl, if_neg (by decide)]
    have h1 : up + 1 - 1 = up := by ring
    rw [h1, max_eq_left hu]
  · rw [if_neg (by decide), if_pos rfl, handleVote_remove,
      if_neg (by decide), if_pos rfl]
    have h1 : down + 1 - 1 = down := by ring
    rw [h1, max_eq_left hd]

theorem post_vote_unique_and_double_toggle_witness :
    atMostOne voteKey (handleVoteRows [] 0 0 VoteType.up) ∧
      handleVote (handleVote ⟨none, 2, 3⟩ VoteType.up) VoteType.up = ⟨none, 2, 3⟩ :=
  post_vote_unique_and_double_toggle [] 0 0 VoteType.up ⟨none, 2, 3⟩
    (fun k => by simp [rowsFor]) rfl (by decide) (by decide)

/-- C2: for one user acting sequentially on one post from the no-vote state,
the vote sequence up, up, down ends in vote state `down` with net change 0
to `upvotes` and +1 to `downvotes`. -/
theorem vote_sequence_up_up_down (s : PostCounters) (hv : s.vote = none)
    (hu : 0 ≤ s.upvotes) :
    handleVote (handleVote (handleVote s VoteType.up) VoteType.up) VoteType.down =
      ⟨some VoteType.down, s.upvotes, s.downvotes + 1⟩ := by
  obtain ⟨v, up, down⟩ := s
  simp only at hv hu
  subst hv
  rw [handleVote_fresh, if_pos rfl, if_neg (by decide), handleVote_remove,
    if_pos rfl, if_neg (by decide)]
  have h1 : up + 1 - 1 = up := by ring
  rw [h1, max_eq_left hu, handleVote_fresh, if_neg (by decide), if_pos rfl]

theorem vote_sequence_up_up_down_witness :
    handleVote (handleVote (handleVote ⟨none, 2, 3⟩ VoteType.up) VoteType.up)
        VoteType.down = ⟨some VoteType.down, 2, 4⟩ :=
  vote_sequence_up_up_down ⟨none, 2, 3⟩ rfl (by decide)

/-- `reaction_type` column of `vlog_reactions`: {like, dislike}. -/
inductive ReactionType
  | like
  | dislike
deriving DecidableEq, Repr

/-- The per-(user, vlog) client state used by the vlog component's
`handleReaction`: the user's current reaction (`vlog.user_reaction`) and the
vlog's `like_count` / `dislike_count` columns. -/
structure VlogCounters where
  user_reaction : Option ReactionType
  like_count : Int
  dislike_count : Int
deriving DecidableEq, Repr

/-- The vlog component's `handleReaction` as a transition on the per-(user,
vlog) state. Unlike `Posts.tsx handleVote`, every counter write is the raw
`vlog.<kind>_count ± 1` with no `Math.max(..., 0)` flooring. On a switch the
old reaction's counter is written as `count - 1` and the new reaction's
counter as `count + 1`, both computed from the originally fetched vlog row. -/
def handleReaction (s : VlogCounters) (rt : ReactionType) : VlogCounters :=
  if s.user_reaction = some rt then
    { user_reaction := none
      like_count := if rt = ReactionType.like then s.like_count - 1 else s.like_count
      dislike_count :=
        if rt = ReactionType.dislike then s.dislike_count - 1 else s.dislike_count }
  else
    match s.user_reaction with
    | some old =>
        { user_reaction := some rt
          like_count :=
            if rt = ReactionType.like then s.like_count + 1
            else if old = ReactionType.like then s.like_count - 1 else s.like_count
          dislike_count :=
            if rt = ReactionType.dislike then s.dislike_count + 1
            else if old = ReactionType.dislike then s.dislike_count - 1
            else s.dislike_count }
    | none =>
        { user_reaction := some rt
          like_count := if rt = ReactionType.like then s.like_count + 1 else s.like_count
          dislike_count :=
            if rt = ReactionType.dislike then s.dislike_count + 1 else s.dislike_count }

/-- The reaction-consistency invariant: counters are non-negative and any
currently stored reaction is reflected by a count of at least 1. -/
def VlogInv (v : VlogCounters) : Prop :=
  0 ≤ v.like_count ∧ 0 ≤ v.dislike_count ∧
    (v.user_reaction = some ReactionType.like → 1 ≤ v.like_count) ∧
    (v.user_reaction = some ReactionType.dislike → 1 ≤ v.dislike_count)

/-- C3 counterexample: from a state with non-negative counters
(`like_count = 0`, existing like reaction) the vlog `handleReaction` toggle
writes `like_count = -1`: counter writes are not floored at zero. -/
theorem vlog_reaction_writes_negative :
    0 ≤ (VlogCounters.mk (some ReactionType.like) 0 0).like_count ∧
      0 ≤ (VlogCounters.mk (some ReactionType.like) 0 0).dislike_count ∧
      (handleReaction ⟨some ReactionType.like, 0, 0⟩ ReactionType.like).like_count < 0 := by
  decide

/-- C3 amended: `Posts.tsx handleVote` transitions never write a negative
counter starting from non-negative counters (every decrement is floored by
`Math.max(..., 0)`); vlog `handleReaction` transitions are not floored and
only avoid negative writes under the stronger precondition `VlogInv` (each
counter is at least 1 whenever the stored reaction is of that kind), which
`handleReaction` moreover preserves. -/
theorem counter_writes_nonneg_amended (s : PostCounters) (v : VlogCounters)
    (vt : VoteType) (rt : ReactionType) (hsu : 0 ≤ s.upvotes)
    (hsd : 0 ≤ s.downvotes) (hv : VlogInv v) :
    (0 ≤ (handleVote s vt).upvotes ∧ 0 ≤ (handleVote s vt).downvotes) ∧
      (0 ≤ (handleReaction v rt).like_count ∧
        0 ≤ (handleReaction v rt).dislike_count) ∧
      VlogInv (handleReaction v rt) := by
  obtain ⟨hl, hd, hrl, hrd⟩ := hv
  refine ⟨?_, ?_, ?_⟩
  · obtain ⟨sv, up, down⟩ := s
    simp only at hsu hsd
    cases sv with
    | none =>
        rw [handleVote_fresh]
        cases vt <;> simp <;> omega
    | some old =>
        cases old <;> cases vt <;>
          simp [handleVote, le_max_right, handleVote_remove] <;> omega
  · obtain ⟨rv, lc, dc⟩ := v
    simp only at hl hd hrl hrd
    cases rv with
    | none => cases rt <;> simp [handleReaction] <;> omega
    | some old =>
        cases old <;> cases rt <;> simp_all [handleReaction] <;> omega
  · obtain ⟨rv, lc, dc⟩ := v
    simp only at hl hd hrl hrd
    cases rv with
    | none => cases rt <;> simp [handleReaction, VlogInv] <;> omega
    | some old =>
        cases old <;> cases rt <;> simp_all [handleReaction, VlogInv] <;> omega

theorem counter_writes_nonneg_amended_witness :
    (0 ≤ (handleVote ⟨some VoteType.up, 1, 0⟩ VoteType.up).upvotes ∧
        0 ≤ (handleVote ⟨some VoteType.up, 1, 0⟩ VoteType.up).downvotes) ∧
      (0 ≤ (handleReaction ⟨some ReactionType.like, 1, 0⟩ ReactionType.like).like_count ∧
        0 ≤ (handleReaction ⟨some ReactionType.like, 1, 0⟩ ReactionType.like).dislike_count) ∧
      VlogInv (handleReaction ⟨some ReactionType.like, 1, 0⟩ ReactionType.like) :=
  counter_writes_nonneg_amended ⟨some VoteType.up, 1, 0⟩
    ⟨some ReactionType.like, 1, 0⟩ VoteType.up ReactionType.like (by decide)
    (by decide) (by unfold VlogInv; decide)

/-- A row of the `chats` table: `CONSTRAINT different_users CHECK
(user1_id != user2_id)`, `CONSTRAINT ordered_users CHECK (user1_id < user2_id)`. -/
structure Chat where
  id : Nat
  user1_id : Nat
  user2_id : Nat
deriving DecidableEq, Repr

/-- The `.or(and(user1_id.eq.me,user2_id.eq.other),and(user1_id.eq.other,
user2_id.eq.me))` filter of `Matches.tsx handleStartChat`. -/
def chatMatches (me other : Nat) (c : Chat) : Bool :=
  decide ((c.user1_id = me ∧ c.user2_id = other) ∨
    (c.user1_id = other ∧ c.user2_id = me))

/-- The existing-chat lookup of `handleStartChat` (`maybeSingle`). -/
def findChat (t : List Chat) (me other : Nat) : Option Chat :=
  t.find? (chatMatches me other)

/-- The server-side gate on chat INSERT: RLS policy `auth.uid() IN (user1_id,
user2_id) AND user1_id < user2_id` plus the table CHECK constraints
`user1_id != user2_id` and `user1_id < user2_id`. -/
def chatInsertAllowed (uid u1 u2 : Nat) : Bool :=
  decide ((uid = u1 ∨ uid = u2) ∧ u1 ≠ u2 ∧ u1 < u2)

/-- `Matches.tsx handleStartChat` acting as `me` towards `other`: return the
existing chat row for the unordered pair if one exists, otherwise insert
`(user1_id, user2_id) = (min, max)` subject to the server-side gate.
Returns the new table and the chat row navigated to (`none` = rejected). -/
def handleStartChat (t : List Chat) (me other : Nat) (newId : Nat) :
    List Chat × Option Chat :=
  match findChat t me other with
  | some c => (t, some c)
  | none =>
      let u1 := if me < other then me else other
      let u2 := if me < other then other else me
      if chatInsertAllowed me u1 u2 then
        (⟨newId, u1, u2⟩ :: t, some ⟨newId, u1, u2⟩)
      else
        (t, none)

theorem find?_pred_eq {α : Type} (p q : α → Bool) (h : ∀ a, p a = q a)
    (l : List α) : l.find? p = l.find? q := by
  induction l with
  | nil => rfl
  | cons a l ih => cases hpa : p a <;> simp [List.find?_cons, hpa, ← h a, ih]

theorem chatMatches_symm (A B : Nat) (c : Chat) :
    chatMatches B A c = chatMatches A B c := by
  unfold chatMatches
  rw [decide_eq_decide]
  tauto

theorem findChat_symm (t : List Chat) (A B : Nat) :
    findChat t B A = findChat t A B :=
  find?_pred_eq _ _ (chatMatches_symm A B) t

/-- C4: for distinct profiles A and B, `handleStartChat` is idempotent: the
first call yields a chat row with `user1_id = min A B`, `user2_id = max A B`,
`user1_id ≠ user2_id`, and any repeated call — initiated by A or by B —
returns the identical table and the identical chat row; a self-chat
(`A = A`) is never created. -/
theorem start_chat_idempotent (t : List Chat) (A B nid nid2 nid3 : Nat)
    (hAB : A ≠ B) (hinv : ∀ c ∈ t, c.user1_id < c.user2_id) :
    (∃ c, (handleStartChat t A B nid).2 = some c ∧ c.user1_id = min A B ∧
      c.user2_id = max A B ∧ c.user1_id ≠ c.user2_id) ∧
      handleStartChat (handleStartChat t A B nid).1 A B nid2 =
        handleStartChat t A B nid ∧
      handleStartChat (handleStartChat t A B nid).1 B A nid2 =
        handleStartChat t A B nid ∧
      handleStartChat t A A nid3 = (t, none) := by
  have hself : handleStartChat t A A nid3 = (t, none) := by
    have hfind : findChat t A A = none := by
      unfold findChat
      rw [List.find?_eq_none]
      intro c hc
      unfold chatMatches
      simp only [decide_eq_true_eq]
      rintro (⟨h1, h2⟩ | ⟨h1, h2⟩) <;>
        exact absurd (h1.trans h2.symm) (Nat.ne_of_lt (hinv c hc))
    unfold handleStartChat
    rw [hfind]
    simp [chatInsertAllowed]
  cases hfc : findChat t A B with
  | some c =>
      have hc := List.mem_of_find?_eq_some hfc
      have hmatch : chatMatches A B c = true := List.find?_some hfc
      unfold chatMatches at hmatch
      simp only [decide_eq_true_eq] at hmatch
      have hlt := hinv c hc
      have hfields : c.user1_id = min A B ∧ c.user2_id = max A B := by
        rcases hmatch with ⟨h1, h2⟩ | ⟨h1, h2⟩
        · subst h1; subst h2
          exact ⟨(min_eq_left (le_of_lt hlt)).symm, (max_eq_right (le_of_lt hlt)).symm⟩
        · subst h1; subst h2
          exact ⟨(min_eq_right (le_of_lt hlt)).symm, (max_eq_left (le_of_lt hlt)).symm⟩
      have hres : handleStartChat t A B nid = (t, some c) := by
        unfold handleStartChat
        rw [hfc]
      refine ⟨⟨c, by rw [hres], hfields.1, hfields.2, Nat.ne_of_lt hlt⟩, ?_, ?_, hself⟩
      · rw [hres]
        unfold handleStartChat
        rw [hfc]
      · rw [hres]
        unfold handleStartChat
        rw [findChat_symm, hfc]
  | none =>
      have hord : (if A < B then A else B) < (if A < B then B else A) := by
        rcases Nat.lt_or_ge A B with h | h
        · simp only [if_pos h]
          exact h
        · have hBA : B < A := lt_of_le_of_ne h hAB.symm
          simp only [if_neg (not_lt_of_ge h)]
          exact hBA
      have hallow : chatInsertAllowed A (if A < B then A else B)
          (if A < B then B else A) = true := by
        unfold chatInsertAllowed
        simp only [decide_eq_true_eq]
        refine ⟨?_, Nat.ne_of_lt hord, hord⟩
        by_cases h : A < B <;> simp [h]
      have hres : handleStartChat t A B nid =
          (⟨nid, if A < B then A else B, if A < B then B else A⟩ :: t,
            some ⟨nid, if A < B then A else B, if A < B then B else A⟩) := by
        unfold handleStartChat
        rw [hfc]
        simp only [hallow, if_pos]
      have hmatchNew : chatMatches A B
          ⟨nid, if A < B then A else B, if A < B then B else A⟩ = true := by
        unfold chatMatches
        simp only [decide_eq_true_eq]
        by_cases h : A < B <;> simp [h]
      have hfindNew : findChat
          (⟨nid, if A < B then A else B, if A < B then B else A⟩ :: t) A B =
          some ⟨nid, if A < B then A else B, if A < B then B else A⟩ := by
        unfold findChat
        rw [List.find?_cons, hmatchNew]
      have hminmax : (if A < B then A else B) = min A B ∧
          (if A < B then B else A) = max A B := by
        rcases Nat.lt_or_ge A B with h | h
        · simp [h, min_eq_left (le_of_lt h), max_eq_right (le_of_lt h)]
        · simp [Nat.not_lt_of_le h, min_eq_right h, max_eq_left h]
      refine ⟨⟨⟨nid, if A < B then A else B, if A < B then B else A⟩,
        by rw [hres], hminmax.1, hminmax.2, Nat.ne_of_lt hord⟩, ?_, ?_, hself⟩
      · rw [hres]
        unfold handleStartChat
        rw [hfindNew]
      · rw [hres]
        unfold handleStartChat
        rw [findChat_symm, hfindNew]

theorem start_chat_idempotent_witness :
    (∃ c, (handleStartChat [] 2 1 7).2 = some c ∧ c.user1_id = min 2 1 ∧
      c.user2_id = max 2 1 ∧ c.user1_id ≠ c.user2_id) ∧
      handleStartChat (handleStartChat [] 2 1 7).1 2 1 8 =
        handleStartChat [] 2 1 7 ∧
      handleStartChat (handleStartChat [] 2 1 7).1 1 2 8 =
        handleStartChat [] 2 1 7 ∧
      handleStartChat [] 2 2 9 = ([], none) :=
  start_chat_idempotent [] 2 1 7 8 9 (by decide) (by intro c hc; cases hc)

/-- `user_role` enum: CREATE TYPE user_role AS ENUM ('resident','traveler'). -/
inductive UserRole
  | resident
  | traveler
deriving DecidableEq, Repr

/-- A row of `profiles` (the columns the events policy reads). -/
structure Profile where
  id : Nat
  role : UserRole
deriving DecidableEq, Repr

/-- RLS policy "Only residents can create events": INSERT on `events` WITH
CHECK `auth.uid() = added_by AND EXISTS (SELECT 1 FROM profiles WHERE id =
auth.uid() AND role = 'resident')`. -/
def canInsertEvent (profiles : List Profile) (uid addedBy : Nat) : Bool :=
  decide (uid = addedBy) &&
    profiles.any (fun p => decide (p.id = uid) && decide (p.role = UserRole.resident))

/-- C5: the policy engine permits INSERT into `events` exactly when the
acting identity equals the new row's `added_by` and that identity's profile
has role resident; an attempt by a traveler profile, or with `added_by`
different from the acting identity, is rejected. -/
theorem event_insert_policy (profiles : List Profile) (uid addedBy : Nat)
    (hids : ∀ p ∈ profiles, ∀ q ∈ profiles, p.id = q.id → p = q) :
    (canInsertEvent profiles uid addedBy = true ↔
      uid = addedBy ∧ ∃ p ∈ profiles, p.id = uid ∧ p.role = UserRole.resident) ∧
      (∀ p ∈ profiles, p.id = uid → p.role = UserRole.traveler →
        canInsertEvent profiles uid addedBy = false) ∧
      (uid ≠ addedBy → canInsertEvent profiles uid addedBy = false) := by
  have hiff : canInsertEvent profiles uid addedBy = true ↔
      uid = addedBy ∧ ∃ p ∈ profiles, p.id = uid ∧ p.role = UserRole.resident := by
    unfold canInsertEvent
    simp [List.any_eq_true]
  refine ⟨hiff, fun p hp hpid hprole => ?_, fun hne => ?_⟩
  · rw [← Bool.not_eq_true, hiff]
    rintro ⟨-, q, hq, hqid, hqrole⟩
    have hqp : q = p := hids q hq p hp (hqid.trans hpid.symm)
    rw [hqp, hprole] at hqrole
    cases hqrole
  · rw [← Bool.not_eq_true, hiff]
    rintro ⟨h, -⟩
    exact hne h

theorem event_insert_policy_witness :
    canInsertEvent [⟨1, UserRole.resident⟩, ⟨2, UserRole.traveler⟩] 1 1 = true ∧
      canInsertEvent [⟨1, UserRole.resident⟩, ⟨2, UserRole.traveler⟩] 2 2 = false ∧
      canInsertEvent [⟨1, UserRole.resident⟩, ⟨2, UserRole.traveler⟩] 1 3 = false := by
  have h := event_insert_policy [⟨1, UserRole.resident⟩, ⟨2, UserRole.traveler⟩] 1 1
    (by decide)
  have h₂ := event_insert_policy [⟨1, UserRole.resident⟩, ⟨2, UserRole.traveler⟩] 2 2
    (by decide)
  have h₃ := event_insert_policy [⟨1, UserRole.resident⟩, ⟨2, UserRole.traveler⟩] 1 3
    (by decide)
  refine ⟨h.1.mpr ⟨rfl, ⟨1, UserRole.resident⟩, by simp, rfl, rfl⟩,
    h₂.2.1 ⟨2, UserRole.traveler⟩ (by simp) rfl rfl, h₃.2.2 (by decide)⟩

/-- A row of `messages` (the columns the policies read). -/
structure Message where
  chat_id : Nat
  sender_id : Nat
deriving DecidableEq, Repr

/-- RLS policy "Chat participants can view messages": SELECT USING
`EXISTS (SELECT 1 FROM chats WHERE chats.id = messages.chat_id AND
(chats.user1_id = auth.uid() OR chats.user2_id = auth.uid()))`. -/
def canSelectMessage (chats : List Chat) (uid : Nat) (m : Message) : Bool :=
  chats.any (fun c => decide (c.id = m.chat_id) &&
    (decide (c.user1_id = uid) || decide (c.user2_id = uid)))

/-- RLS policy "Chat participants can send messages": INSERT WITH CHECK
`sender_id = auth.uid() AND EXISTS (... participant of the chat ...)`. -/
def canInsertMessage (chats : List Chat) (uid : Nat) (m : Message) : Bool :=
  decide (m.sender_id = uid) &&
    chats.any (fun c => decide (c.id = m.chat_id) &&
      (decide (c.user1_id = uid) || decide (c.user2_id = uid)))

/-- The acting identity participates in the chat `cid`. -/
def isParticipant (chats : List Chat) (uid cid : Nat) : Prop :=
  ∃ c ∈ chats, c.id = cid ∧ (c.user1_id = uid ∨ c.user2_id = uid)

/-- C6: message SELECT succeeds exactly when the acting identity is user1
or user2 of the referenced chat; message INSERT succeeds exactly when the
acting identity participates in the referenced chat and the row's
`sender_id` equals the acting identity; every other read or write is
rejected. -/
theorem message_policy (chats : List Chat) (uid : Nat) (m : Message) :
    (canSelectMessage chats uid m = true ↔ isParticipant chats uid m.chat_id) ∧
      (canInsertMessage chats uid m = true ↔
        m.sender_id = uid ∧ isParticipant chats uid m.chat_id) ∧
      (¬isParticipant chats uid m.chat_id →
        canSelectMessage chats uid m = false ∧
          canInsertMessage chats uid m = false) ∧
      (m.sender_id ≠ uid → canInsertMessage chats uid m = false) := by
  have hsel : canSelectMessage chats uid m = true ↔
      isParticipant chats uid m.chat_id := by
    unfold canSelectMessage isParticipant
    simp [List.any_eq_true]
  have hins : canInsertMessage chats uid m = true ↔
      m.sender_id = uid ∧ isParticipant chats uid m.chat_id := by
    unfold canInsertMessage isParticipant
    simp [List.any_eq_true]
  refine ⟨hsel, hins, fun hnp => ⟨?_, ?_⟩, fun hns => ?_⟩
  · rw [← Bool.not_eq_true, hsel]
    exact hnp
  · rw [← Bool.not_eq_true, hins]
    rintro ⟨-, h⟩
    exact hnp h
  · rw [← Bool.not_eq_true, hins]
    rintro ⟨h, -⟩
    exact hns h

theorem message_policy_witness :
    canSelectMessage [⟨9, 1, 2⟩] 1 ⟨9, 1⟩ = true ∧
      canInsertMessage [⟨9, 1, 2⟩] 1 ⟨9, 1⟩ = true ∧
      canSelectMessage [⟨9, 1, 2⟩] 3 ⟨9, 3⟩ = false ∧
      canInsertMessage [⟨9, 1, 2⟩] 2 ⟨9, 1⟩ = false := by
  have h := message_policy [⟨9, 1, 2⟩] 1 ⟨9, 1⟩
  have h₂ := message_policy [⟨9, 1, 2⟩] 3 ⟨9, 3⟩
  have h₃ := message_policy [⟨9, 1, 2⟩] 2 ⟨9, 1⟩
  refine ⟨h.1.mpr ⟨⟨9, 1, 2⟩, by simp, rfl, Or.inl rfl⟩,
    h.2.1.mpr ⟨rfl, ⟨9, 1, 2⟩, by simp, rfl, Or.inl rfl⟩,
    (h₂.2.2.1 ?_).1, h₃.2.2.2 (by decide)⟩
  unfold isParticipant
  decide

/-- Step 1 of `Matches.tsx fetchMatches`: the city ids that the current
user has joined (`city_members` rows with `profile_id = me`). A
`city_members` row is a (profile_id, city_id) pair. -/
def userCities (members : List (Nat × Nat)) (me : Nat) : List Nat :=
  (members.filter (fun r => decide (r.1 = me))).map Prod.snd

/-- The profile `p` shares some joined city with `me` (an existence check
over `city_members`). -/
def sharesCity (members : List (Nat × Nat)) (me p : Nat) : Bool :=
  members.any (fun r => decide (r.1 = me) &&
    members.any (fun r₂ => decide (r₂.1 = p) && decide (r₂.2 = r.2)))

/-- `Matches.tsx fetchMatches`: empty result when the user has joined no
cities; otherwise the set of `profile_id`s of `city_members` rows in one of
the user's cities, excluding the user (the component accumulates them into
a `Set`). -/
def fetchMatches (members : List (Nat × Nat)) (me : Nat) : Finset Nat :=
  let cityIds := userCities members me
  if cityIds.isEmpty then ∅
  else
    (members.filter (fun r => decide (r.2 ∈ cityIds) && !(decide (r.1 = me)))).foldr
      (fun r s => insert r.1 s) ∅

theorem mem_foldr_insert (l : List (Nat × Nat)) (x : Nat) :
    x ∈ l.foldr (fun r s => insert r.1 s) (∅ : Finset Nat) ↔ ∃ r ∈ l, r.1 = x := by
  induction l with
  | nil => simp
  | cons a l ih =>
      simp only [List.foldr_cons, Finset.mem_insert, ih, List.mem_cons]
      constructor
      · rintro (h | ⟨r, hr, hrx⟩)
        · exact ⟨a, Or.inl rfl, h.symm⟩
        · exact ⟨r, Or.inr hr, hrx⟩
      · rintro ⟨r, hr | hr, hrx⟩
        · exact Or.inl (by rw [← hr, hrx])
        · exact Or.inr ⟨r, hr, hrx⟩

theorem mem_userCities (members : List (Nat × Nat)) (me c : Nat) :
    c ∈ userCities members me ↔ (me, c) ∈ members := by
  unfold userCities
  rw [List.mem_map]
  constructor
  · rintro ⟨r, hr, hrc⟩
    rw [List.mem_filter] at hr
    obtain ⟨r₁, r₂⟩ := r
    simp only [decide_eq_true_eq] at hr
    obtain ⟨hm, h₁⟩ := hr
    simp only at hrc
    subst h₁
    subst hrc
    exact hm
  · intro h
    exact ⟨(me, c), by rw [List.mem_filter]; exact ⟨h, by simp⟩, rfl⟩

theorem sharesCity_iff (members : List (Nat × Nat)) (me p : Nat) :
    sharesCity members me p = true ↔
      ∃ c, (me, c) ∈ members ∧ (p, c) ∈ members := by
  unfold sharesCity
  simp only [List.any_eq_true, Bool.and_eq_true, decide_eq_true_eq]
  constructor
  · rintro ⟨r, hr, hrme, r₂, hr₂, hr₂p, hr₂₂⟩
    refine ⟨r.2, ?_, ?_⟩
    · obtain ⟨r1, r2⟩ := r
      simp only at hrme ⊢
      subst hrme
      exact hr
    · obtain ⟨a, b⟩ := r₂
      simp only at hr₂p hr₂₂
      subst hr₂p
      subst hr₂₂
      exact hr₂
  · rintro ⟨c, h₁, h₂⟩
    exact ⟨(me, c), h₁, rfl, (p, c), h₂, rfl, rfl⟩

theorem mem_fetchMatches (members : List (Nat × Nat)) (me x : Nat) :
    x ∈ fetchMatches members me ↔
      x ≠ me ∧ ∃ c, (me, c) ∈ members ∧ (x, c) ∈ members := by
  unfold fetchMatches
  by_cases he : (userCities members me).isEmpty
  · rw [if_pos he]
    rw [List.isEmpty_iff] at he
    simp only [Finset.not_mem_empty, false_iff]
    rintro ⟨-, c, hc, -⟩
    rw [← mem_userCities, he] at hc
    cases hc
  · rw [if_neg he, mem_foldr_insert]
    constructor
    · rintro ⟨r, hr, hrx⟩
      rw [List.mem_filter, Bool.and_eq_true] at hr
      obtain ⟨hrm, hcity, hne⟩ := hr
      rw [decide_eq_true_eq] at hcity
      rw [Bool.not_eq_eq_eq_not, Bool.not_true, decide_eq_false_iff_not] at hne
      refine ⟨by rw [← hrx]; exact hne, r.2, (mem_userCities members me r.2).mp hcity, ?_⟩
      obtain ⟨r1, r2⟩ := r
      simp only at hrx ⊢
      rw [← hrx]
      exact hrm
    · rintro ⟨hxme, c, hmec, hxc⟩
      refine ⟨(x, c), ?_, rfl⟩
      rw [List.mem_filter, Bool.and_eq_true]
      exact ⟨hxc, by rw [decide_eq_true_eq, mem_userCities]; exact hmec,
        by rw [Bool.not_eq_eq_eq_not, Bool.not_true, decide_eq_false_iff_not]; exact hxme⟩

/-- C7: the matching query returns the empty set for a profile with zero
city memberships; and when exactly one other profile shares a joined city
with the acting profile, `fetchMatches` returns exactly that one profile
and never includes the acting profile. -/
theorem matching_query (members : List (Nat × Nat)) (me q : Nat) :
    (userCities members me = [] → fetchMatches members me = ∅) ∧
      (q ≠ me → q ∈ members.map Prod.fst →
        (∀ p ∈ members.map Prod.fst,
          (p ≠ me ∧ sharesCity members me p = true ↔ p = q)) →
        fetchMatches members me = {q} ∧ me ∉ fetchMatches members me) := by
  constructor
  · intro h
    have he : (userCities members me).isEmpty = true := by rw [h]; rfl
    unfold fetchMatches
    rw [if_pos he]
  · intro hqme hqmem hshare
    have hq : q ∈ fetchMatches members me := by
      rw [mem_fetchMatches]
      have hs := (hshare q hqmem).mpr rfl
      exact ⟨hs.1, (sharesCity_iff members me q).mp hs.2⟩
    have hsub : ∀ x, x ∈ fetchMatches members me → x = q := by
      intro x hx
      rw [mem_fetchMatches] at hx
      obtain ⟨hxme, c, hmec, hxc⟩ := hx
      have hxmem : x ∈ members.map Prod.fst := by
        rw [List.mem_map]
        exact ⟨(x, c), hxc, rfl⟩
      exact (hshare x hxmem).mp
        ⟨hxme, (sharesCity_iff members me x).mpr ⟨c, hmec, hxc⟩⟩
    refine ⟨Finset.ext fun x => ?_, fun hme => hqme (hsub me hme).symm⟩
    rw [Finset.mem_singleton]
    exact ⟨hsub x, fun h => h ▸ hq⟩

theorem matching_query_witness :
    fetchMatches [((1 : Nat), (10 : Nat)), (2, 10)] 1 = {2} ∧
      (1 : Nat) ∉ fetchMatches [((1 : Nat), (10 : Nat)), (2, 10)] 1 ∧
      fetchMatches [((5 : Nat), (10 : Nat))] 1 = ∅ := by
  have h := (matching_query [(1, 10), (2, 10)] 1 2).2 (by decide) (by decide)
    (by decide)
  exact ⟨h.1, h.2, (matching_query [(5, 10)] 1 0).1 rfl⟩

/-- `status` column of `event_rsvps`: CHECK (status IN ('going','interested')). -/
inductive RsvpStatus
  | going
  | interested
deriving DecidableEq, Repr

/-- A row of the `event_rsvps` table: `PRIMARY KEY (event_id, user_id)`. -/
structure RsvpRow where
  event_id : Nat
  user_id : Nat
  status : RsvpStatus
deriving DecidableEq, Repr

/-- The composite primary key of `event_rsvps`. -/
def rsvpKey (r : RsvpRow) : Nat × Nat := (r.event_id, r.user_id)

/-- `Events.tsx handleRSVP` status branch:
`supabase.from('event_rsvps').upsert({...}, { onConflict: 'event_id,user_id' })`. -/
def upsertRsvp (t : List RsvpRow) (e u : Nat) (st : RsvpStatus) : List RsvpRow :=
  upsertRow rsvpKey t (e, u) ⟨e, u, st⟩ (fun r => { r with status := st })

/-- `Events.tsx handleRSVP` 'none' branch:
`supabase.from('event_rsvps').delete().match({ event_id, user_id })`. -/
def deleteRsvp (t : List RsvpRow) (e u : Nat) : List RsvpRow :=
  deleteRows rsvpKey t (e, u)

/-- `Events.tsx handleRSVP`: delete the (event, user) row on 'none',
otherwise upsert the chosen status on the composite key. -/
def handleRSVP (t : List RsvpRow) (e u : Nat) (status : Option RsvpStatus) :
    List RsvpRow :=
  match status with
  | none => deleteRsvp t e u
  | some st => upsertRsvp t e u st

theorem rowsFor_upsertRsvp (t : List RsvpRow) (e u : Nat) (st : RsvpStatus)
    (ht : atMostOne rsvpKey t) :
    rowsFor rsvpKey (upsertRsvp t e u st) (e, u) = [⟨e, u, st⟩] := by
  unfold upsertRsvp
  rw [rowsFor_upsertRow_self rsvpKey t (e, u) ⟨e, u, st⟩
    (fun r => { r with status := st }) rfl (fun r => rfl)]
  by_cases hany : t.any (fun r => decide (rsvpKey r = (e, u))) = true
  · rw [if_pos hany]
    obtain ⟨r, hr, hk⟩ := (any_key_eq rsvpKey t (e, u)).mp hany
    have hmem : r ∈ rowsFor rsvpKey t (e, u) := by
      unfold rowsFor
      rw [List.mem_filter]
      exact ⟨hr, by simp [hk]⟩
    cases h : rowsFor rsvpKey t (e, u) with
    | nil =>
        rw [h] at hmem
        cases hmem
    | cons a l =>
        have hlen := ht (e, u)
        rw [h, List.length_cons] at hlen
        have hl : l = [] := List.eq_nil_of_length_eq_zero (by omega)
        subst hl
        have hka := (mem_rowsFor rsvpKey t (e, u) a (h ▸ List.mem_cons_self a [])).2
        unfold rsvpKey at hka
        obtain ⟨a₁, a₂, a₃⟩ := a
        simp only [Prod.mk.injEq] at hka
        obtain ⟨h₁, h₂⟩ := hka
        subst h₁
        subst h₂
        rfl
  · rw [if_neg hany]

/-- C8: from any table satisfying the `event_rsvps` composite primary key,
the RSVP sequence going, interested for one (event, user) pair leaves
exactly one row for that pair, with status interested after the second call
(last write wins) and status going in between — never two rows, and the
primary-key invariant holds at every point. -/
theorem rsvp_last_write_wins (t : List RsvpRow) (e u : Nat)
    (ht : atMostOne rsvpKey t) :
    rowsFor rsvpKey (handleRSVP t e u (some RsvpStatus.going)) (e, u) =
        [⟨e, u, RsvpStatus.going⟩] ∧
      atMostOne rsvpKey (handleRSVP t e u (some RsvpStatus.going)) ∧
      rowsFor rsvpKey
          (handleRSVP (handleRSVP t e u (some RsvpStatus.going)) e u
            (some RsvpStatus.interested)) (e, u) =
        [⟨e, u, RsvpStatus.interested⟩] ∧
      atMostOne rsvpKey
        (handleRSVP (handleRSVP t e u (some RsvpStatus.going)) e u
          (some RsvpStatus.interested)) := by
  have h₁ : atMostOne rsvpKey (upsertRsvp t e u RsvpStatus.going) :=
    atMostOne_upsertRow rsvpKey t (e, u) ⟨e, u, RsvpStatus.going⟩
      (fun r => { r with status := RsvpStatus.going }) rfl (fun r => rfl) ht
  exact ⟨rowsFor_upsertRsvp t e u RsvpStatus.going ht, h₁,
    rowsFor_upsertRsvp _ e u RsvpStatus.interested h₁,
    atMostOne_upsertRow rsvpKey _ (e, u) ⟨e, u, RsvpStatus.interested⟩
      (fun r => { r with status := RsvpStatus.interested }) rfl (fun r => rfl) h₁⟩

theorem rsvp_last_write_wins_witness :
    rowsFor rsvpKey (handleRSVP [] 4 9 (some RsvpStatus.going)) (4, 9) =
        [⟨4, 9, RsvpStatus.going⟩] ∧
      atMostOne rsvpKey (handleRSVP [] 4 9 (some RsvpStatus.going)) ∧
      rowsFor rsvpKey
          (handleRSVP (handleRSVP [] 4 9 (some RsvpStatus.going)) 4 9
            (some RsvpStatus.interested)) (4, 9) =
        [⟨4, 9, RsvpStatus.interested⟩] ∧
      atMostOne rsvpKey
        (handleRSVP (handleRSVP [] 4 9 (some RsvpStatus.going)) 4 9
          (some RsvpStatus.interested)) :=
  rsvp_last_write_wins [] 4 9 (fun k => by simp [rowsFor])

/-- A row of `travel_plans` (the date columns the CHECK constraint reads);
dates are modelled as `Int` day numbers. -/
structure TravelPlan where
  start_date : Int
  end_date : Int
deriving DecidableEq, Repr

/-- INSERT into `travel_plans` gated by `CONSTRAINT valid_date_range CHECK
(end_date >= start_date)`: a violating row is rejected wholesale. -/
def insertTravelPlan (t : List TravelPlan) (p : TravelPlan) :
    Option (List TravelPlan) :=
  if p.start_date ≤ p.end_date then some (p :: t) else none

/-- C9: every `travel_plans` row in the store satisfies
`end_date >= start_date` after any successful insert (the invariant is
preserved), and an insert attempt with `end_date < start_date` is rejected
with no row created. -/
theorem travel_plan_date_range (t : List TravelPlan) (p : TravelPlan)
    (hinv : ∀ q ∈ t, q.start_date ≤ q.end_date) :
    (∀ t₂, insertTravelPlan t p = some t₂ →
        ∀ q ∈ t₂, q.start_date ≤ q.end_date) ∧
      (p.end_date < p.start_date → insertTravelPlan t p = none) := by
  constructor
  · intro t₂ h q hq
    unfold insertTravelPlan at h
    by_cases hp : p.start_date ≤ p.end_date
    · rw [if_pos hp] at h
      cases h
      rcases List.mem_cons.mp hq with h | h
      · rw [h]
        exact hp
      · exact hinv q h
    · rw [if_neg hp] at h
      cases h
  · intro hlt
    unfold insertTravelPlan
    rw [if_neg (not_le_of_lt hlt)]

theorem travel_plan_date_range_witness :
    ((∀ t₂, insertTravelPlan [] ⟨0, 5⟩ = some t₂ →
        ∀ q ∈ t₂, q.start_date ≤ q.end_date) ∧
      ((5 : Int) < 0 → insertTravelPlan [] ⟨0, 5⟩ = none)) ∧
      insertTravelPlan [] ⟨5, 0⟩ = none :=
  ⟨travel_plan_date_range [] ⟨0, 5⟩ (fun q hq => by cases hq),
    (travel_plan_date_range [] ⟨5, 0⟩ (fun q hq => by cases hq)).2 (by decide)⟩

/-- A row of `community_wiki` (the poll columns `handleVote` reads): an
optional list of answer choices and an optional vote-tally object, modelled
as an association list in key-insertion order. -/
structure WikiEntry where
  poll_answers : Option (List String)
  poll_votes : Option (List (String × Nat))
deriving DecidableEq, Repr

/-- The poll tally stored for `c` (JS `poll_votes[c]`, defaulting to 0). -/
def tally (votes : List (String × Nat)) (c : String) : Nat :=
  ((votes.find? (fun kv => decide (kv.1 = c))).map Prod.snd).getD 0

/-- The JS update `updatedVotes[choice] = (updatedVotes[choice] || 0) + 1`
on the spread copy of the votes object: an existing key is bumped in place,
a missing key is appended with tally 1. -/
def bumpVote (votes : List (String × Nat)) (choice : String) :
    List (String × Nat) :=
  if votes.any (fun kv => decide (kv.1 = choice)) then
    votes.map (fun kv => if kv.1 = choice then (kv.1, kv.2 + 1) else kv)
  else
    votes ++ [(choice, 1)]

/-- `CommunityWiki.tsx handleVote` as a transform of the stored entry:
it returns early (no write) when the entry is missing, has no `poll_votes`
object, or the choice is not contained in `poll_answers`; otherwise it
writes the bumped votes object. -/
def wikiHandleVote (entry : Option WikiEntry) (choice : String) :
    Option WikiEntry :=
  match entry with
  | none => none
  | some e =>
      match e.poll_votes, e.poll_answers with
      | some votes, some answers =>
          if choice ∈ answers then
            some { e with poll_votes := some (bumpVote votes choice) }
          else
            some e
      | _, _ => some e

/-- The tally recorded in an optional stored entry. -/
def entryTally (entry : Option WikiEntry) (c : String) : Nat :=
  match entry with
  | none => 0
  | some e =>
      match e.poll_votes with
      | some votes => tally votes c
      | none => 0

/-- Iterated `handleVote` calls with the same choice (the same user voting
repeatedly). -/
def voteTimes (entry : Option WikiEntry) (choice : String) : Nat → Option WikiEntry
  | 0 => entry
  | n + 1 => wikiHandleVote (voteTimes entry choice n) choice

theorem find?_map_bump (votes : List (String × Nat)) (choice c : String) :
    (votes.map (fun kv => if kv.1 = choice then (kv.1, kv.2 + 1) else kv)).find?
        (fun kv => decide (kv.1 = c)) =
      (votes.find? (fun kv => decide (kv.1 = c))).map
        (fun kv => if kv.1 = choice then (kv.1, kv.2 + 1) else kv) := by
  rw [List.find?_map]
  congr 1
  exact find?_pred_eq _ _
    (fun kv => by by_cases hk : kv.1 = choice <;> simp [hk, Function.comp]) votes

theorem tally_bumpVote_self (votes : List (String × Nat)) (choice : String) :
    tally (bumpVote votes choice) choice = tally votes choice + 1 := by
  unfold bumpVote
  by_cases hany : votes.any (fun kv => decide (kv.1 = choice)) = true
  · rw [if_pos hany]
    unfold tally
    rw [find?_map_bump]
    cases hfind : votes.find? (fun kv => decide (kv.1 = choice)) with
    | none =>
        rw [List.find?_eq_none] at hfind
        rw [List.any_eq_true] at hany
        obtain ⟨kv, hkv, hp⟩ := hany
        exact absurd hp (hfind kv hkv)
    | some kv =>
        have hp := List.find?_some hfind
        rw [decide_eq_true_eq] at hp
        simp [hp]
  · rw [if_neg hany]
    have hnone : votes.find? (fun kv => decide (kv.1 = choice)) = none := by
      rw [List.find?_eq_none]
      intro kv hkv
      simp only [decide_eq_true_eq]
      intro hk
      exact hany (by
        rw [List.any_eq_true]
        exact ⟨kv, hkv, by simp [hk]⟩)
    unfold tally
    rw [List.find?_append, hnone]
    simp [hnone, List.find?_cons]

theorem tally_bumpVote_other (votes : List (String × Nat)) (choice c : String)
    (hne : c ≠ choice) :
    tally (bumpVote votes choice) c = tally votes c := by
  unfold bumpVote
  by_cases hany : votes.any (fun kv => decide (kv.1 = choice)) = true
  · rw [if_pos hany]
    unfold tally
    rw [find?_map_bump]
    cases hfind : votes.find? (fun kv => decide (kv.1 = c)) with
    | none => rfl
    | some kv =>
        have hp := List.find?_some hfind
        rw [decide_eq_true_eq] at hp
        have hk : ¬(kv.1 = choice) := by
          rw [hp]
          exact hne
        simp [hk]
  · rw [if_neg hany]
    unfold tally
    rw [List.find?_append]
    cases hfind : votes.find? (fun kv => decide (kv.1 = c)) with
    | some kv => simp
    | none =>
        simp only [Option.none_or, List.find?_cons,
          decide_eq_false (fun h => hne h.symm : ¬(choice = c))]
        rfl

theorem wikiHandleVote_write (e : WikiEntry) (votes : List (String × Nat))
    (answers : List String) (choice : String) (hv : e.poll_votes = some votes)
    (ha : e.poll_answers = some answers) (hc : choice ∈ answers) :
    wikiHandleVote (some e) choice =
      some { e with poll_votes := some (bumpVote votes choice) } := by
  obtain ⟨pa, pv⟩ := e
  simp only at hv ha
  subst hv
  subst ha
  simp only [wikiHandleVote]
  rw [if_pos hc]

theorem voteTimes_tally (votes : List (String × Nat)) (answers : List String)
    (choice : String) (hc : choice ∈ answers) (n : Nat) :
    ∃ v, voteTimes (some ⟨some answers, some votes⟩) choice n =
        some ⟨some answers, some v⟩ ∧
      tally v choice = tally votes choice + n := by
  induction n with
  | zero => exact ⟨votes, rfl, rfl⟩
  | succ n ih =>
      obtain ⟨v, hvt, htal⟩ := ih
      refine ⟨bumpVote v choice, ?_, ?_⟩
      · unfold voteTimes
        rw [hvt, wikiHandleVote_write ⟨some answers, some v⟩ v answers choice rfl rfl hc]
      · rw [tally_bumpVote_self, htal, Nat.add_assoc]

/-- C10: community-wiki poll voting is unrestricted per user — a
`handleVote` call whose choice is in the entry's `poll_answers` increments
exactly that choice's tally by one and leaves every other tally unchanged,
and n repeated calls by the same user add n (no at-most-one-vote-per-user
invariant); a call whose choice is not in `poll_answers`, or whose entry is
missing or lacks a poll, changes nothing. -/
theorem wiki_poll_vote_unrestricted (e : WikiEntry) (votes : List (String × Nat))
    (answers : List String) (choice : String) (hv : e.poll_votes = some votes)
    (ha : e.poll_answers = some answers) :
    (choice ∈ answers →
        entryTally (wikiHandleVote (some e) choice) choice =
            entryTally (some e) choice + 1 ∧
          (∀ c, c ≠ choice →
            entryTally (wikiHandleVote (some e) choice) c = entryTally (some e) c) ∧
          (∀ n, entryTally (voteTimes (some e) choice n) choice =
            entryTally (some e) choice + n)) ∧
      (choice ∉ answers → wikiHandleVote (some e) choice = some e) ∧
      (∀ e₂ : WikiEntry, e₂.poll_votes = none →
        wikiHandleVote (some e₂) choice = some e₂) ∧
      (∀ e₃ : WikiEntry, e₃.poll_answers = none →
        wikiHandleVote (some e₃) choice = some e₃) ∧
      wikiHandleVote none choice = none := by
  obtain ⟨pa, pv⟩ := e
  simp only at hv ha
  subst hv
  subst ha
  have hTally : ∀ v c, entryTally (some (⟨some answers, some v⟩ : WikiEntry)) c =
      tally v c := fun v c => rfl
  refine ⟨fun hc => ⟨?_, fun c hcne => ?_, fun n => ?_⟩, fun hc => ?_, ?_, ?_, rfl⟩
  · rw [wikiHandleVote_write ⟨some answers, some votes⟩ votes answers choice rfl rfl hc,
      hTally, hTally, tally_bumpVote_self]
  · rw [wikiHandleVote_write ⟨some answers, some votes⟩ votes answers choice rfl rfl hc,
      hTally, hTally, tally_bumpVote_other votes choice c hcne]
  · obtain ⟨v, hvt, htal⟩ := voteTimes_tally votes answers choice hc n
    rw [hvt, hTally, hTally, htal]
  · simp only [wikiHandleVote]
    rw [if_neg hc]
  · intro e₂ h₂
    obtain ⟨pa₂, pv₂⟩ := e₂
    simp only at h₂
    subst h₂
    cases pa₂ <;> rfl
  · intro e₃ h₃
    obtain ⟨pa₃, pv₃⟩ := e₃
    simp only at h₃
    subst h₃
    cases pv₃ <;> rfl

theorem wiki_poll_vote_unrestricted_witness :
    (entryTally
          (wikiHandleVote (some ⟨some ["a", "b"], some [("a", 2)]⟩) "a") "a" =
        entryTally (some (⟨some ["a", "b"], some [("a", 2)]⟩ : WikiEntry)) "a" + 1 ∧
        (∀ c, c ≠ "a" →
          entryTally (wikiHandleVote (some ⟨some ["a", "b"], some [("a", 2)]⟩) "a") c =
            entryTally (some (⟨some ["a", "b"], some [("a", 2)]⟩ : WikiEntry)) c) ∧
        (∀ n, entryTally
            (voteTimes (some ⟨some ["a", "b"], some [("a", 2)]⟩) "a" n) "a" =
          entryTally (some (⟨some ["a", "b"], some [("a", 2)]⟩ : WikiEntry)) "a" + n)) ∧
      wikiHandleVote (some ⟨some ["a", "b"], some [("a", 2)]⟩) "z" =
        some ⟨some ["a", "b"], some [("a", 2)]⟩ :=
  ⟨(wiki_poll_vote_unrestricted ⟨some ["a", "b"], some [("a", 2)]⟩ [("a", 2)]
      ["a", "b"] "a" rfl rfl).1 (by decide),
    (wiki_poll_vote_unrestricted ⟨some ["a", "b"], some [("a", 2)]⟩ [("a", 2)]
      ["a", "b"] "z" rfl rfl).2.1 (by decide)⟩
